import Mathlib

/-! # Lifecycle coordinator (`src/lifecycle.go`)

A shallow embedding of the Go package `lifecycle`: the hook registry, the
state word guarded by compare-and-swap, and the `Start` / `Stop` protocols
with the `multierr` aggregate.

Modelling conventions

* A Go `error` interface value is `Option GoError`; `none` is the nil
  interface.  A value of the named slice type `multierr` stored in an
  `error` is `some (GoError.multierr es)`, which is not nil whatever `es` is.
* A callback `func(ctx context.Context) error` is a function of the context
  and of an external world `σ` that returns its error and the new world.
  Callbacks do not touch the coordinator itself.
* `context.Context` is an arbitrary type `κ`; a possibly nil context is
  `Option κ`.
* Every execution carries a ghost trace of the callbacks it invoked, each
  named by the index of its hook in `l.hooks`.
* The calls are sequential; the atomic compare-and-swap is the sequential
  function `CompareAndSwapInt32`.
-/

namespace Lifecycle

/-! ## Errors -/

/-- Go error values: `fundamental` is the error built by `errors.New` and
`errors.Errorf` of `github.com/pkg/errors` (its message), and stands for any
error value a hook returns; `multierr` is `type multierr []error`. -/
inductive GoError where
  | fundamental (msg : String)
  | multierr (errs : List GoError)

mutual
/-- The method `Error()` of an error value; for `multierr` it is
`func (e multierr) Error() string`, a loop over `range e`. -/
def GoError.Error : GoError → String
  | .fundamental msg => msg
  | .multierr es => multierrLoop es 0 ""
/-- The body of `for i := range e` in `multierr.Error`, from index `i` on,
with `buff` the contents of the `strings.Builder`. -/
def multierrLoop : List GoError → Nat → String → String
  | [], _, buff => buff
  | e :: rest, i, buff =>
    multierrLoop rest (i + 1) ((if i != 0 then buff ++ "; " else buff) ++ e.Error)
end

/-- The call `errors.New(message)`. -/
def errors.New (message : String) : GoError := GoError.fundamental message

/-- The call `errors.Errorf(format, n)` for a format that ends in the single
verb `%d`; `head` is the format without the verb. -/
def errors.Errorf (head : String) (n : Int) : GoError :=
  GoError.fundamental (head ++ toString n)

/-! ## Data model -/

/-- Constant `stopped = iota`. -/
def stopped : Int := 0
/-- Constant `starting`. -/
def starting : Int := 1
/-- Constant `started`. -/
def started : Int := 2
/-- Constant `stopping`. -/
def stopping : Int := 3

/-- A callback `func(ctx context.Context) error` acting on the world `σ`. -/
abbrev Callback (κ σ : Type) := κ → σ → Option GoError × σ

/-- The struct `Hook`: a pair of start and stop callbacks, either of which can
be nil (`none`). -/
structure Hook (κ σ : Type) where
  OnStart : Option (Callback κ σ)
  OnStop : Option (Callback κ σ)

/-- The struct `lifecycle`: `state int32` and `hooks []Hook`. -/
structure lifecycle (κ σ : Type) where
  state : Int
  hooks : List (Hook κ σ)

/-- A callback invocation, named by the index of its hook in `l.hooks`. -/
inductive Event where
  | onStart (i : Nat)
  | onStop (i : Nat)
  deriving DecidableEq, Repr

/-- What a call of `Start` or `Stop` leaves behind: the returned `error`, the
coordinator, the world, and the ghost trace of the callbacks invoked. -/
structure Outcome (κ σ : Type) where
  err : Option GoError
  lc : lifecycle κ σ
  world : σ
  trace : List Event

/-- The state of a loop over `l.hooks`: the error returned out of the loop (if
any), the slice `errs`, the world, and the ghost trace. -/
structure LoopState (σ : Type) where
  ret : Option GoError
  errs : List GoError
  world : σ
  trace : List Event

variable {κ σ : Type}

/-- Function `New`: `new(lifecycle)`, the zero value. -/
def New : lifecycle κ σ := ⟨0, []⟩

/-- Method `Append`: `l.hooks = append(l.hooks, h)`. -/
def lifecycle.Append (l : lifecycle κ σ) (h : Hook κ σ) : lifecycle κ σ :=
  ⟨l.state, l.hooks ++ [h]⟩

/-- Sequential `atomic.CompareAndSwapInt32(addr, old, new)`: whether the swap
happened, and the value of the word afterwards. -/
def CompareAndSwapInt32 (addr old new : Int) : Bool × Int :=
  if addr = old then (true, new) else (false, addr)

/-- Method `runStartHook`: `return hook.OnStart(ctx)`, called only under
`hook.OnStart != nil`; `onStart` is that non-nil callback. -/
def runStartHook (ctx : κ) (onStart : Callback κ σ) (w : σ) : Option GoError × σ :=
  onStart ctx w

/-- Method `runStopHook`: `return hook.OnStop(ctx)`, called only under
`hook.OnStop != nil`; `onStop` is that non-nil callback. -/
def runStopHook (ctx : κ) (onStop : Callback κ σ) (w : σ) : Option GoError × σ :=
  onStop ctx w

/-- The loop `for _, hook := range l.hooks` of `Start`, over the remaining
hooks, the first of which has index `i`. It returns from the loop at the first
non-nil error. -/
def startLoop (ctx : κ) : List (Hook κ σ) → Nat → LoopState σ → LoopState σ
  | [], _, s => s
  | hook :: rest, i, s =>
    match hook.OnStart with
    | none => startLoop ctx rest (i + 1) s
    | some f =>
      match runStartHook ctx f s.world with
      | (some err, w) => ⟨some err, s.errs, w, s.trace ++ [Event.onStart i]⟩
      | (none, w) => startLoop ctx rest (i + 1) ⟨s.ret, s.errs, w, s.trace ++ [Event.onStart i]⟩

/-- Method `Start`. -/
def lifecycle.Start (l : lifecycle κ σ) (ctx : Option κ) (w : σ) : Outcome κ σ :=
  match ctx with
  | none => ⟨some (errors.New "start lifecycle with nil context"), l, w, []⟩
  | some c =>
    match CompareAndSwapInt32 l.state stopped starting with
    | (false, st) =>
      ⟨some (errors.Errorf "attempted to start lifecycle when in state: " st), ⟨st, l.hooks⟩, w, []⟩
    | (true, st) =>
      let s := startLoop c l.hooks 0 ⟨none, [], w, []⟩
      match s.ret with
      | some err => ⟨some err, ⟨st, l.hooks⟩, s.world, s.trace⟩
      | none => ⟨none, ⟨(CompareAndSwapInt32 st starting started).2, l.hooks⟩, s.world, s.trace⟩

/-- The loop `for _, hook := range l.hooks` of `Stop`, over the remaining
hooks, the first of which has index `i`; a non-nil error is appended to
`errs` and the loop goes on. -/
def stopLoop (ctx : κ) : List (Hook κ σ) → Nat → LoopState σ → LoopState σ
  | [], _, s => s
  | hook :: rest, i, s =>
    match hook.OnStop with
    | none => stopLoop ctx rest (i + 1) s
    | some f =>
      match runStopHook ctx f s.world with
      | (some err, w) =>
        stopLoop ctx rest (i + 1) ⟨s.ret, s.errs ++ [err], w, s.trace ++ [Event.onStop i]⟩
      | (none, w) =>
        stopLoop ctx rest (i + 1) ⟨s.ret, s.errs, w, s.trace ++ [Event.onStop i]⟩

/-- Method `Stop`. The value returned after the loop is `errs`, of type
`multierr`, converted to `error`: a non-nil interface value. -/
def lifecycle.Stop (l : lifecycle κ σ) (ctx : Option κ) (w : σ) : Outcome κ σ :=
  match ctx with
  | none => ⟨some (errors.New "stop lifecycle with nil context"), l, w, []⟩
  | some c =>
    match CompareAndSwapInt32 l.state started stopping with
    | (false, st) => ⟨none, ⟨st, l.hooks⟩, w, []⟩
    | (true, st) =>
      let s := stopLoop c l.hooks 0 ⟨none, [], w, []⟩
      ⟨some (GoError.multierr s.errs),
        ⟨(CompareAndSwapInt32 st stopping stopped).2, l.hooks⟩, s.world, s.trace⟩

/-! ## Sequences of calls -/

/-- One call on the interface `Lifecycle`. -/
inductive Call (κ σ : Type) where
  | Append (h : Hook κ σ)
  | Start (ctx : Option κ)
  | Stop (ctx : Option κ)

/-- What a call returns: nothing for `Append`, an `error` for `Start` and
`Stop`. -/
inductive Ret where
  | unit
  | error (err : Option GoError)

/-- A finite history of calls: the coordinator and the world it leaves, the
trace of every callback invoked, and what each call returned. -/
structure History (κ σ : Type) where
  lc : lifecycle κ σ
  world : σ
  trace : List Event
  rets : List Ret

/-- Run the calls one after the other, from coordinator `l` and world `w`. -/
def runCalls : List (Call κ σ) → lifecycle κ σ → σ → History κ σ
  | [], l, w => ⟨l, w, [], []⟩
  | Call.Append h :: rest, l, w =>
    let r := runCalls rest (l.Append h) w
    ⟨r.lc, r.world, r.trace, Ret.unit :: r.rets⟩
  | Call.Start ctx :: rest, l, w =>
    let o := l.Start ctx w
    let r := runCalls rest o.lc o.world
    ⟨r.lc, r.world, o.trace ++ r.trace, Ret.error o.err :: r.rets⟩
  | Call.Stop ctx :: rest, l, w =>
    let o := l.Stop ctx w
    let r := runCalls rest o.lc o.world
    ⟨r.lc, r.world, o.trace ++ r.trace, Ret.error o.err :: r.rets⟩

/-- Whether the call passes a non-nil context (`Append` takes none). -/
def Call.ctxPresent : Call κ σ → Bool
  | Call.Append _ => true
  | Call.Start ctx => ctx.isSome
  | Call.Stop ctx => ctx.isSome

/-! ## Vocabulary of the specification -/

/-- The present `OnStart` callbacks of a hook list, in registration order. -/
def presentStarts (hs : List (Hook κ σ)) : List (Callback κ σ) :=
  hs.filterMap (fun h => h.OnStart)

/-- The present `OnStop` callbacks of a hook list, in registration order. -/
def presentStops (hs : List (Hook κ σ)) : List (Callback κ σ) :=
  hs.filterMap (fun h => h.OnStop)

/-- Invoke the callbacks one after the other, whatever they return: the list
of their results and the final world. -/
def runSeq (ctx : κ) : List (Callback κ σ) → σ → List (Option GoError) × σ
  | [], w => ([], w)
  | f :: fs, w => ((f ctx w).1 :: (runSeq ctx fs (f ctx w).2).1, (runSeq ctx fs (f ctx w).2).2)

/-- The `onStart` events of the hooks that have an `OnStart`, in registration
order. -/
def startEvents (hs : List (Hook κ σ)) : List Event :=
  (hs.enum.filter (fun p => p.2.OnStart.isSome)).map (fun p => Event.onStart p.1)

/-- The `onStop` events of the hooks that have an `OnStop`, in registration
order. -/
def stopEvents (hs : List (Hook κ σ)) : List Event :=
  (hs.enum.filter (fun p => p.2.OnStop.isSome)).map (fun p => Event.onStop p.1)

/-- The index of the hook whose callback the event invokes. -/
def Event.index : Event → Nat
  | Event.onStart i => i
  | Event.onStop i => i

/-- A coordinator built by `New` followed by one `Append` per hook. -/
def registered (hs : List (Hook κ σ)) : lifecycle κ σ :=
  hs.foldl lifecycle.Append New

/-- The error `Start` returns when the state is `s`, not `stopped`. -/
def invalidState (s : Int) : GoError :=
  GoError.fundamental ("attempted to start lifecycle when in state: " ++ toString s)

/-- What a call returns once a `Start` has failed on a hook: `Start` the
invalid-state error for state `starting`, `Stop` nil. -/
def stuckRet : Call κ σ → Ret
  | Call.Append _ => Ret.unit
  | Call.Start _ => Ret.error (some (invalidState starting))
  | Call.Stop _ => Ret.error none

/-! ## Concrete hooks

The world is the list of lines printed so far and the context is
`context.Background()`, a unit value. -/

/-- A callback that prints `line` and returns nil. -/
def say (line : String) : Callback Unit (List String) :=
  fun _ w => (none, w ++ [line])

/-- A callback that prints `line` and returns the error `errors.New(msg)`. -/
def sayFail (line msg : String) : Callback Unit (List String) :=
  fun _ w => (some (errors.New msg), w ++ [line])

/-- A callback that returns the error `errors.New(msg)`. -/
def failWith (msg : String) : Callback Unit (List String) :=
  fun _ w => (some (errors.New msg), w)

/-- The first hook of `src/lifecycle_test.go`: both callbacks print and
succeed. -/
def testHook1 : Hook Unit (List String) :=
  ⟨some (say "1: start"), some (say "1: stop")⟩

/-- The second hook of `src/lifecycle_test.go`: only an `OnStart`, which
fails. -/
def testHook2 : Hook Unit (List String) :=
  ⟨some (failWith "2: start error"), none⟩

/-- The third hook of `src/lifecycle_test.go`: only an `OnStop`, which
fails. -/
def testHook3 : Hook Unit (List String) :=
  ⟨none, some (failWith "3: stop error")⟩

/-- The three hooks of `src/lifecycle_test.go`, in registration order. -/
def testHooks : List (Hook Unit (List String)) :=
  [testHook1, testHook2, testHook3]

/-- The hooks A, C, B of the last scenario of the specification: every
`OnStart` succeeds, and only the `OnStop` of C fails. -/
def hooksACB : List (Hook Unit (List String)) :=
  [⟨some (say "A.start"), some (say "A.stop")⟩,
   ⟨some (say "C.start"), some (sayFail "C.stop" "C failed")⟩,
   ⟨some (say "B.start"), some (say "B.stop")⟩]

/-- The calls `Stop`, `Start`, `Append`, `Start`, `Stop`, each with a
context. -/
def laterCalls : List (Call Unit (List String)) :=
  [Call.Stop (some ()), Call.Start (some ()), Call.Append testHook1, Call.Start (some ()),
   Call.Stop (some ())]

/-- One hook whose two callbacks succeed. -/
def hooksOk : List (Hook Unit (List String)) :=
  [⟨some (say "1: start"), some (say "1: stop")⟩]

/-- Two hooks A and B, in registration order, whose `OnStop` callbacks both
fail. -/
def hooksFailAB : List (Hook Unit (List String)) :=
  [⟨some (say "A.start"), some (sayFail "A.stop" "A failed")⟩,
   ⟨some (say "B.start"), some (sayFail "B.stop" "B failed")⟩]

/-- A callback invocation, named by the callback itself. -/
inductive Invocation (κ σ : Type) where
  | start (f : Callback κ σ)
  | stop (f : Callback κ σ)

/-- The callback that an event invokes, looked up in the hook list. -/
def Event.invocation (hs : List (Hook κ σ)) : Event → Option (Invocation κ σ)
  | Event.onStart i =>
    match hs[i]? with
    | some h => h.OnStart.map Invocation.start
    | none => none
  | Event.onStop i =>
    match hs[i]? with
    | some h => h.OnStop.map Invocation.stop
    | none => none

/-- Invoke the callbacks one after the other up to the first one that returns
an error: that error (or nil), the final world, and the number of callbacks
invoked. -/
def runUntilError (ctx : κ) : List (Callback κ σ) → σ → Option GoError × σ × Nat
  | [], w => (none, w, 0)
  | f :: fs, w =>
    match f ctx w with
    | (some err, w') => (some err, w', 1)
    | (none, w') =>
      ((runUntilError ctx fs w').1, (runUntilError ctx fs w').2.1,
        (runUntilError ctx fs w').2.2 + 1)

/-! ## The two loops -/

/-- The loop of `Stop` invokes every present `OnStop` in registration order
and appends the non-nil results to `errs`. -/
theorem stopLoop_eq (c : κ) (hs : List (Hook κ σ)) (i : Nat) (s : LoopState σ) :
    stopLoop c hs i s =
      ⟨s.ret, s.errs ++ (runSeq c (presentStops hs) s.world).1.reduceOption,
        (runSeq c (presentStops hs) s.world).2,
        s.trace ++ ((hs.enumFrom i).filter (fun p => p.2.OnStop.isSome)).map
          (fun p => Event.onStop p.1)⟩ := by
  induction hs generalizing i s with
  | nil => simp [stopLoop, presentStops, runSeq]
  | cons h t ih =>
    cases hstop : h.OnStop with
    | none =>
      simp [stopLoop, presentStops, hstop, ih, List.enumFrom_cons, List.filter_cons]
    | some f =>
      rcases hr : f c s.world with ⟨r, w⟩
      cases r with
      | none =>
        simp [stopLoop, presentStops, runStopHook, hstop, hr, ih, runSeq, List.enumFrom_cons,
          List.filter_cons]
      | some e =>
        simp [stopLoop, presentStops, runStopHook, hstop, hr, ih, runSeq, List.enumFrom_cons,
          List.filter_cons]

/-- The loop of `Start` passes over a segment of hooks whose present `OnStart`
callbacks all return nil, invoking each of them in registration order. -/
theorem startLoop_append (c : κ) (pre rest : List (Hook κ σ)) (i : Nat) (s : LoopState σ)
    (hok : ∀ r ∈ (runSeq c (presentStarts pre) s.world).1, r = none) :
    startLoop c (pre ++ rest) i s =
      startLoop c rest (i + pre.length)
        ⟨s.ret, s.errs, (runSeq c (presentStarts pre) s.world).2,
          s.trace ++ ((pre.enumFrom i).filter (fun p => p.2.OnStart.isSome)).map
            (fun p => Event.onStart p.1)⟩ := by
  induction pre generalizing i s with
  | nil => simp [presentStarts, runSeq]
  | cons h t ih =>
    cases hstart : h.OnStart with
    | none =>
      have hok2 : ∀ r ∈ (runSeq c (presentStarts t) s.world).1, r = none := by
        simpa [presentStarts, hstart] using hok
      simp [startLoop, presentStarts, hstart, ih (i + 1) s hok2, List.enumFrom_cons,
        List.filter_cons]
      congr 1
      omega
    | some f =>
      rcases hr : f c s.world with ⟨r, w⟩
      have hok1 : ∀ r ∈ (runSeq c (f :: presentStarts t) s.world).1, r = none := by
        simpa [presentStarts, hstart] using hok
      simp only [runSeq, hr, List.mem_cons] at hok1
      have hr0 : r = none := hok1 r (Or.inl rfl)
      subst hr0
      have hok2 : ∀ r ∈ (runSeq c (presentStarts t) w).1, r = none :=
        fun r hmem => hok1 r (Or.inr hmem)
      simp [startLoop, presentStarts, runStartHook, hstart, hr, runSeq, List.enumFrom_cons,
          List.filter_cons]
      rw [ih]
      · simp [presentStarts]
        congr 1
        omega
      · simpa using hok2

/-- When every present `OnStart` returns nil the loop of `Start` runs to its
end without returning. -/
theorem startLoop_ok (c : κ) (hs : List (Hook κ σ)) (i : Nat) (s : LoopState σ)
    (hok : ∀ r ∈ (runSeq c (presentStarts hs) s.world).1, r = none) :
    startLoop c hs i s =
      ⟨s.ret, s.errs, (runSeq c (presentStarts hs) s.world).2,
        s.trace ++ ((hs.enumFrom i).filter (fun p => p.2.OnStart.isSome)).map
          (fun p => Event.onStart p.1)⟩ := by
  have h := startLoop_append c hs [] i s hok
  simpa [startLoop] using h

/-- The loop of `Start` returns at a hook whose `OnStart` fails. -/
theorem startLoop_fail (c : κ) (h : Hook κ σ) (post : List (Hook κ σ)) (i : Nat)
    (s : LoopState σ) (f : Callback κ σ) (e : GoError)
    (hf : h.OnStart = some f) (he : (f c s.world).1 = some e) :
    startLoop c (h :: post) i s =
      ⟨some e, s.errs, (f c s.world).2, s.trace ++ [Event.onStart i]⟩ := by
  rcases hr : f c s.world with ⟨r, w⟩
  rw [hr] at he
  simp only at he
  subst he
  simp [startLoop, runStartHook, hf, hr]

/-- Unfolding of `Start` with a context in state `stopped`. -/
theorem Start_stopped (hs : List (Hook κ σ)) (c : κ) (w : σ) :
    lifecycle.Start ⟨stopped, hs⟩ (some c) w =
      match (startLoop c hs 0 ⟨none, [], w, []⟩).ret with
      | some err => ⟨some err, ⟨starting, hs⟩, (startLoop c hs 0 ⟨none, [], w, []⟩).world,
          (startLoop c hs 0 ⟨none, [], w, []⟩).trace⟩
      | none => ⟨none, ⟨started, hs⟩, (startLoop c hs 0 ⟨none, [], w, []⟩).world,
          (startLoop c hs 0 ⟨none, [], w, []⟩).trace⟩ := by
  simp [lifecycle.Start, CompareAndSwapInt32]

/-- Unfolding of `Stop` with a context in state `started`. -/
theorem Stop_started (hs : List (Hook κ σ)) (c : κ) (w : σ) :
    lifecycle.Stop ⟨started, hs⟩ (some c) w =
      ⟨some (GoError.multierr ((runSeq c (presentStops hs) w).1.reduceOption)),
        ⟨stopped, hs⟩, (runSeq c (presentStops hs) w).2, stopEvents hs⟩ := by
  simp [lifecycle.Stop, CompareAndSwapInt32, stopLoop_eq, stopEvents, List.enum]

/-! ## Event lists and registration -/

/-- Membership in the list of events drawn from the enumeration of a hook
list, one per hook that satisfies `p`. -/
theorem mem_events (hs : List (Hook κ σ)) (p : Hook κ σ → Bool) (g : Nat → Event)
    (hg : Function.Injective g) (j : Nat) :
    g j ∈ (hs.enum.filter (fun q => p q.2)).map (fun q => g q.1) ↔
      ∃ h, hs[j]? = some h ∧ p h = true := by
  constructor
  · intro hmem
    rcases List.mem_map.1 hmem with ⟨⟨i, h⟩, hq, hgi⟩
    have hij : i = j := hg hgi
    subst hij
    rcases List.mem_filter.1 hq with ⟨hen, hp⟩
    exact ⟨h, List.mk_mem_enum_iff_getElem?.1 hen, hp⟩
  · rintro ⟨h, hget, hp⟩
    exact List.mem_map.2 ⟨(j, h), List.mem_filter.2 ⟨List.mk_mem_enum_iff_getElem?.2 hget, hp⟩, rfl⟩

/-- The hook indices of such a list of events increase strictly: the events
come in registration order and no hook occurs twice. -/
theorem events_sorted (hs : List (Hook κ σ)) (p : Hook κ σ → Bool) (g : Nat → Event)
    (hg : ∀ i, (g i).index = i) :
    (((hs.enum.filter (fun q => p q.2)).map (fun q => g q.1)).map Event.index).Pairwise
      (fun a b => a < b) := by
  have hsub : List.Sublist ((hs.enum.filter (fun q => p q.2)).map Prod.fst)
      (hs.enum.map Prod.fst) := List.Sublist.map _ (List.filter_sublist _)
  have h1 : ((hs.enum.filter (fun q => p q.2)).map Prod.fst).Pairwise (fun a b => a < b) := by
    refine List.Pairwise.sublist hsub ?_
    rw [List.enum_map_fst]
    exact List.pairwise_lt_range _
  have h2 : ((hs.enum.filter (fun q => p q.2)).map (fun q => g q.1)).map Event.index
      = (hs.enum.filter (fun q => p q.2)).map Prod.fst := by
    rw [List.map_map]
    apply List.map_congr_left
    intro q _
    simp [hg]
  rw [h2]
  exact h1

/-- Every event of such a list names a hook of the list. -/
theorem events_index_lt (hs : List (Hook κ σ)) (p : Hook κ σ → Bool) (g : Nat → Event)
    (hg : ∀ i, (g i).index = i) (ev : Event)
    (hev : ev ∈ (hs.enum.filter (fun q => p q.2)).map (fun q => g q.1)) :
    ev.index < hs.length := by
  rcases List.mem_map.1 hev with ⟨⟨i, h⟩, hq, hgi⟩
  have hget : hs[i]? = some h :=
    List.mk_mem_enum_iff_getElem?.1 (List.mem_filter.1 hq).1
  have hlt : i < hs.length := by
    rcases Nat.lt_or_ge i hs.length with hlt | hge
    · exact hlt
    · rw [List.getElem?_eq_none hge] at hget
      cases hget
  rw [← hgi, hg]
  exact hlt

theorem onStart_injective : Function.Injective Event.onStart := by
  intro a b h
  cases h
  rfl

theorem onStop_injective : Function.Injective Event.onStop := by
  intro a b h
  cases h
  rfl

theorem onStop_not_mem_startEvents (hs : List (Hook κ σ)) (i : Nat) :
    Event.onStop i ∉ startEvents hs := by
  simp [startEvents]

theorem onStart_not_mem_stopEvents (hs : List (Hook κ σ)) (i : Nat) :
    Event.onStart i ∉ stopEvents hs := by
  simp [stopEvents]

theorem registered_eq_aux (hs : List (Hook κ σ)) (l : lifecycle κ σ) :
    hs.foldl lifecycle.Append l = ⟨l.state, l.hooks ++ hs⟩ := by
  induction hs generalizing l with
  | nil => simp
  | cons h t ih => simp [ih, lifecycle.Append]

theorem registered_eq (hs : List (Hook κ σ)) : registered hs = ⟨stopped, hs⟩ := by
  simp [registered, registered_eq_aux, New, stopped]

/-! ## Guards and histories -/

/-- Outside state `stopped`, `Start` with a context fails on its
compare-and-swap and touches nothing. -/
theorem Start_not_stopped (l : lifecycle κ σ) (c : κ) (w : σ) (hne : l.state ≠ stopped) :
    l.Start (some c) w = ⟨some (invalidState l.state), l, w, []⟩ := by
  simp [lifecycle.Start, CompareAndSwapInt32, hne, invalidState, errors.Errorf]

/-- Outside state `started`, `Stop` with a context fails on its
compare-and-swap and touches nothing. -/
theorem Stop_not_started (l : lifecycle κ σ) (c : κ) (w : σ) (hne : l.state ≠ started) :
    l.Stop (some c) w = ⟨none, l, w, []⟩ := by
  simp [lifecycle.Stop, CompareAndSwapInt32, hne]

/-- A `Start` from `stopped` that returns an error leaves the state at
`starting`. -/
theorem Start_stopped_lc_of_err (hs : List (Hook κ σ)) (c : κ) (w : σ) (e : GoError)
    (hfail : (lifecycle.Start ⟨stopped, hs⟩ (some c) w).err = some e) :
    (lifecycle.Start ⟨stopped, hs⟩ (some c) w).lc = ⟨starting, hs⟩ := by
  rw [Start_stopped] at hfail ⊢
  cases hret : (startLoop c hs 0 ⟨none, [], w, []⟩).ret with
  | none => rw [hret] at hfail; cases hfail
  | some err => rfl

/-- A `Start` from `stopped` that returns nil leaves the state at `started`. -/
theorem Start_stopped_lc_of_ok (hs : List (Hook κ σ)) (c : κ) (w : σ)
    (hok : (lifecycle.Start ⟨stopped, hs⟩ (some c) w).err = none) :
    (lifecycle.Start ⟨stopped, hs⟩ (some c) w).lc = ⟨started, hs⟩ := by
  rw [Start_stopped] at hok ⊢
  cases hret : (startLoop c hs 0 ⟨none, [], w, []⟩).ret with
  | none => rfl
  | some err => rw [hret] at hok; cases hok

/-- From state `starting` no sequence of calls with contexts moves the
coordinator or invokes a callback. -/
theorem runCalls_starting (calls : List (Call κ σ)) (l : lifecycle κ σ) (w : σ)
    (hl : l.state = starting) (hctx : ∀ call ∈ calls, call.ctxPresent = true) :
    (runCalls calls l w).lc.state = starting ∧ (runCalls calls l w).world = w ∧
    (runCalls calls l w).trace = [] ∧ (runCalls calls l w).rets = calls.map stuckRet := by
  induction calls generalizing l with
  | nil => simp [runCalls, hl]
  | cons call rest ih =>
    have hrest : ∀ call ∈ rest, call.ctxPresent = true :=
      fun x hx => hctx x (List.mem_cons_of_mem _ hx)
    have hhead := hctx call (List.mem_cons_self _ _)
    cases call with
    | Append h =>
      have := ih (l.Append h) (by simpa [lifecycle.Append] using hl) hrest
      simpa [runCalls, stuckRet] using this
    | Start ctx =>
      cases ctx with
      | none => simp [Call.ctxPresent] at hhead
      | some c =>
        have hne : l.state ≠ stopped := by rw [hl]; decide
        have := ih l hl hrest
        simpa [runCalls, stuckRet, Start_not_stopped l c w hne, hl] using this
    | Stop ctx =>
      cases ctx with
      | none => simp [Call.ctxPresent] at hhead
      | some c =>
        have hne : l.state ≠ started := by rw [hl]; decide
        have := ih l hl hrest
        simpa [runCalls, stuckRet, Stop_not_started l c w hne] using this

/-! ## Claims -/

/-- In state `started`, `Stop` with a context never returns the nil error. -/
theorem Stop_started_err_ne_nil (hs : List (Hook κ σ)) (c : κ) (w : σ) :
    (lifecycle.Stop ⟨started, hs⟩ (some c) w).err ≠ none := by
  simp [Stop_started]

/-- C1, evaluated at the hooks A, C, B (registered in this order, each with an
`OnStop`): `Stop` in state `started` invokes A.stop, C.stop, B.stop, the
registration order, and not B.stop, C.stop, A.stop, the reverse order that the
claim and the comment above `Stop` announce. -/
theorem Stop_order_ACB :
    (lifecycle.Stop ⟨started, hooksACB⟩ (some ()) []).trace
        = [Event.onStop 0, Event.onStop 1, Event.onStop 2] ∧
    (lifecycle.Stop ⟨started, hooksACB⟩ (some ()) []).world
        = ["A.stop", "C.stop", "B.stop"] ∧
    (lifecycle.Stop ⟨started, hooksACB⟩ (some ()) []).trace
        ≠ (stopEvents hooksACB).reverse ∧
    (runCalls (hooksACB.map Call.Append ++ [Call.Start (some ()), Call.Stop (some ())])
        New []).world
        = ["A.start", "C.start", "B.start", "A.stop", "C.stop", "B.stop"] := by
  decide

/-- C2, evaluated at one hook whose callbacks both return nil, and at the
empty hook list: after a successful `Start`, `Stop` returns the aggregate of
zero errors, an `error` value that is not nil and whose message is empty. -/
theorem Stop_empty_aggregate :
    (runCalls (hooksOk.map Call.Append ++ [Call.Start (some ()), Call.Stop (some ())])
        New []).rets
        = [Ret.unit, Ret.error none, Ret.error (some (GoError.multierr []))] ∧
    (lifecycle.Stop ⟨started, hooksOk⟩ (some ()) []).err ≠ none ∧
    (lifecycle.Stop ⟨started, ([] : List (Hook Unit (List String)))⟩ (some ()) []).err
        = some (GoError.multierr []) ∧
    (GoError.multierr []).Error = "" :=
  ⟨rfl, Stop_started_err_ne_nil _ _ _, rfl, rfl⟩

/-- C3: `Start` is fail-fast. Let the hook list be `pre ++ h :: post`, where
every present `OnStart` of `pre` returns nil and the `OnStart` of `h` returns
the error `e`. From state `stopped`, `Start` with a context returns exactly
`e`, leaves the state at `starting` and the hooks unchanged, and has invoked
the present `OnStart` callbacks of `pre` in registration order and then that of
`h`: each of them once, no `OnStart` of a hook of `post`, and no `OnStop`. -/
theorem Start_fail_fast (pre post : List (Hook κ σ)) (h : Hook κ σ) (f : Callback κ σ)
    (c : κ) (w : σ) (e : GoError)
    (hpre : ∀ r ∈ (runSeq c (presentStarts pre) w).1, r = none)
    (hf : h.OnStart = some f)
    (he : (f c (runSeq c (presentStarts pre) w).2).1 = some e) :
    lifecycle.Start ⟨stopped, pre ++ h :: post⟩ (some c) w
        = ⟨some e, ⟨starting, pre ++ h :: post⟩,
            (f c (runSeq c (presentStarts pre) w).2).2,
            startEvents pre ++ [Event.onStart pre.length]⟩ ∧
    ((startEvents pre ++ [Event.onStart pre.length]).map Event.index).Pairwise
        (fun a b => a < b) ∧
    (∀ j, Event.onStart j ∈ startEvents pre ++ [Event.onStart pre.length] ↔
        j ≤ pre.length ∧ ∃ h', (pre ++ h :: post)[j]? = some h' ∧ h'.OnStart.isSome = true) ∧
    (∀ j, Event.onStop j ∉ startEvents pre ++ [Event.onStart pre.length]) := by
  have hmem : ∀ j, Event.onStart j ∈ startEvents pre ↔
      ∃ h', pre[j]? = some h' ∧ h'.OnStart.isSome = true :=
    fun j => mem_events pre (fun h' => h'.OnStart.isSome) Event.onStart onStart_injective j
  refine ⟨?_, ?_, ?_, ?_⟩
  · rw [Start_stopped, startLoop_append c pre (h :: post) 0 _ hpre,
      startLoop_fail c h post _ _ f e hf he]
    simp [startEvents, List.enum]
  · rw [List.map_append, List.pairwise_append]
    refine ⟨events_sorted pre (fun h' => h'.OnStart.isSome) Event.onStart (fun _ => rfl),
      by simp, ?_⟩
    intro a ha b hb
    rcases List.mem_map.1 ha with ⟨ev, hev, rfl⟩
    have hlt := events_index_lt pre (fun h' => h'.OnStart.isSome) Event.onStart
      (fun _ => rfl) ev hev
    simp only [List.map_cons, List.map_nil, List.mem_singleton] at hb
    rw [hb]
    exact hlt
  · intro j
    rw [List.mem_append, hmem j, List.mem_singleton]
    constructor
    · rintro (⟨h', hget, hp⟩ | hj)
      · have hlt : j < pre.length := by
          rcases Nat.lt_or_ge j pre.length with hlt | hge
          · exact hlt
          · rw [List.getElem?_eq_none hge] at hget
            cases hget
        exact ⟨Nat.le_of_lt hlt, h', by rw [List.getElem?_append_left hlt]; exact hget, hp⟩
      · injection hj with hj
        subst hj
        exact ⟨Nat.le_refl _, h,
          by rw [List.getElem?_append_right (Nat.le_refl _)]; simp, by simp [hf]⟩
    · rintro ⟨hle, h', hget, hp⟩
      rcases Nat.lt_or_ge j pre.length with hlt | hge
      · left
        rw [List.getElem?_append_left hlt] at hget
        exact ⟨h', hget, hp⟩
      · right
        have : j = pre.length := Nat.le_antisymm hle hge
        rw [this]
  · intro j hj
    rw [List.mem_append, List.mem_singleton] at hj
    rcases hj with hj | hj
    · exact onStop_not_mem_startEvents pre j hj
    · cases hj

/-- Witness of C3 on the hooks of `src/lifecycle_test.go`: hook 1 starts,
hook 2 fails, hook 3 is not reached. -/
theorem Start_fail_fast_witness :
    (∀ r ∈ (runSeq () (presentStarts [testHook1]) ([] : List String)).1, r = none) ∧
    lifecycle.Start ⟨stopped, [testHook1] ++ testHook2 :: [testHook3]⟩ (some ()) []
        = ⟨some (errors.New "2: start error"),
            ⟨starting, [testHook1] ++ testHook2 :: [testHook3]⟩,
            ["1: start"], [Event.onStart 0, Event.onStart 1]⟩ :=
  ⟨by simp [runSeq, presentStarts, testHook1, say],
    (Start_fail_fast [testHook1] [testHook3] testHook2 (failWith "2: start error") () []
      (errors.New "2: start error") (by simp [runSeq, presentStarts, testHook1, say])
      rfl rfl).1⟩

/-- C4: `Start` on success. When every present `OnStart` of the hook list
returns nil, `Start` with a context from state `stopped` returns nil, leaves
the state at `started` and the hooks unchanged, and has invoked exactly the
present `OnStart` callbacks, each once and in registration order (a hook
without `OnStart` is skipped), and no `OnStop`. -/
theorem Start_success (hs : List (Hook κ σ)) (c : κ) (w : σ)
    (hok : ∀ r ∈ (runSeq c (presentStarts hs) w).1, r = none) :
    lifecycle.Start ⟨stopped, hs⟩ (some c) w
        = ⟨none, ⟨started, hs⟩, (runSeq c (presentStarts hs) w).2, startEvents hs⟩ ∧
    ((startEvents hs).map Event.index).Pairwise (fun a b => a < b) ∧
    (∀ j, Event.onStart j ∈ startEvents hs ↔
        ∃ h, hs[j]? = some h ∧ h.OnStart.isSome = true) ∧
    (∀ j, Event.onStop j ∉ startEvents hs) := by
  refine ⟨?_, events_sorted hs (fun h => h.OnStart.isSome) Event.onStart (fun _ => rfl),
    fun j => mem_events hs (fun h => h.OnStart.isSome) Event.onStart onStart_injective j,
    onStop_not_mem_startEvents hs⟩
  rw [Start_stopped, startLoop_ok c hs 0 _ hok]
  simp [startEvents, List.enum]

/-- Witness of C4 on the hooks A, C, B, whose `OnStart` callbacks all
succeed. -/
theorem Start_success_witness :
    (∀ r ∈ (runSeq () (presentStarts hooksACB) ([] : List String)).1, r = none) ∧
    lifecycle.Start ⟨stopped, hooksACB⟩ (some ()) []
        = ⟨none, ⟨started, hooksACB⟩, ["A.start", "C.start", "B.start"],
            [Event.onStart 0, Event.onStart 1, Event.onStart 2]⟩ :=
  ⟨by simp [runSeq, presentStarts, hooksACB, say],
    (Start_success hooksACB () [] (by simp [runSeq, presentStarts, hooksACB, say])).1⟩

/-- C5: `Stop` is fault-tolerant. In state `started`, whatever the `OnStop`
callbacks return, `Stop` with a context invokes every present `OnStop` exactly
once (in registration order, each in the world left by the one before), invokes
no `OnStart`, returns the aggregate whose errors are exactly the non-nil
results in the order the callbacks ran, and leaves the state at `stopped` and
the hooks unchanged. -/
theorem Stop_collects_every_failure (hs : List (Hook κ σ)) (c : κ) (w : σ) :
    lifecycle.Stop ⟨started, hs⟩ (some c) w
        = ⟨some (GoError.multierr ((runSeq c (presentStops hs) w).1.reduceOption)),
            ⟨stopped, hs⟩, (runSeq c (presentStops hs) w).2, stopEvents hs⟩ ∧
    (runSeq c (presentStops hs) w).1.length = (presentStops hs).length ∧
    ((stopEvents hs).map Event.index).Pairwise (fun a b => a < b) ∧
    (∀ j, Event.onStop j ∈ stopEvents hs ↔
        ∃ h, hs[j]? = some h ∧ h.OnStop.isSome = true) ∧
    (∀ j, Event.onStart j ∉ stopEvents hs) := by
  refine ⟨Stop_started hs c w, ?_,
    events_sorted hs (fun h => h.OnStop.isSome) Event.onStop (fun _ => rfl),
    fun j => mem_events hs (fun h => h.OnStop.isSome) Event.onStop onStop_injective j,
    onStart_not_mem_stopEvents hs⟩
  generalize presentStops hs = fs
  induction fs generalizing w with
  | nil => simp [runSeq]
  | cons f t ih => simp [runSeq, ih]

/-- C6: `Start` is rejected in any state other than `stopped`. A coordinator
whose state is not `stopped` (so `starting`, `started` or `stopping`) answers
`Start` with a context by the error "attempted to start lifecycle when in
state: " followed by the decimal state, invokes no callback and leaves the
state, the hooks and the world as they were. In particular a second `Start`
right after a successful one fails in this way, with state `started`. -/
theorem Start_rejected_unless_stopped :
    (∀ (l : lifecycle κ σ) (c : κ) (w : σ), l.state ≠ stopped →
      l.Start (some c) w
        = ⟨some (GoError.fundamental
              ("attempted to start lifecycle when in state: " ++ toString l.state)),
            l, w, []⟩) ∧
    (∀ (hs : List (Hook κ σ)) (c c' : κ) (w : σ),
      (lifecycle.Start ⟨stopped, hs⟩ (some c) w).err = none →
      (lifecycle.Start ⟨stopped, hs⟩ (some c) w).lc.Start (some c')
          (lifecycle.Start ⟨stopped, hs⟩ (some c) w).world
        = ⟨some (GoError.fundamental "attempted to start lifecycle when in state: 2"),
            ⟨started, hs⟩, (lifecycle.Start ⟨stopped, hs⟩ (some c) w).world, []⟩) := by
  refine ⟨fun l c w hne => Start_not_stopped l c w hne, ?_⟩
  intro hs c c' w hok
  rw [Start_stopped_lc_of_ok hs c w hok]
  exact Start_not_stopped ⟨started, hs⟩ c' _ (show started ≠ stopped by decide)

/-- Witness of C6: `Start` in each of the states `starting`, `started`,
`stopping`, and a second `Start` after a successful one on the hooks A, C, B. -/
theorem Start_rejected_unless_stopped_witness :
    (starting ≠ stopped ∧ started ≠ stopped ∧ stopping ≠ stopped) ∧
    ((lifecycle.Start ⟨starting, hooksACB⟩ (some ()) []).err.map GoError.Error
        = some "attempted to start lifecycle when in state: 1" ∧
      (lifecycle.Start ⟨stopping, hooksACB⟩ (some ()) []).err.map GoError.Error
        = some "attempted to start lifecycle when in state: 3" ∧
      (lifecycle.Start ⟨started, hooksACB⟩ (some ()) []).trace = []) ∧
    (lifecycle.Start ⟨stopped, hooksACB⟩ (some ()) []).err = none ∧
    (lifecycle.Start ⟨stopped, hooksACB⟩ (some ()) []).lc.Start (some ())
          (lifecycle.Start ⟨stopped, hooksACB⟩ (some ()) []).world
        = ⟨some (GoError.fundamental "attempted to start lifecycle when in state: 2"),
            ⟨started, hooksACB⟩, ["A.start", "C.start", "B.start"], []⟩ :=
  ⟨⟨by decide, by decide, by decide⟩,
    ⟨by rw [Start_rejected_unless_stopped.1 ⟨starting, hooksACB⟩ () [] (by decide)]; rfl,
      by rw [Start_rejected_unless_stopped.1 ⟨stopping, hooksACB⟩ () [] (by decide)]; rfl,
      by rw [Start_rejected_unless_stopped.1 ⟨started, hooksACB⟩ () [] (by decide)]⟩,
    rfl, Start_rejected_unless_stopped.2 hooksACB () () [] rfl⟩

/-- C7: `Stop` is a silent no-op unless the state is `started`. A coordinator
whose state is not `started` (so `stopped`, `starting` or `stopping`) answers
`Stop` with a context by nil, invokes no callback and leaves the state, the
hooks and the world as they were. In particular so does a freshly constructed
coordinator, and so does a coordinator after a failed `Start` (state
`starting`), whose hooks that did start are not stopped. -/
theorem Stop_noop_unless_started :
    (∀ (l : lifecycle κ σ) (c : κ) (w : σ), l.state ≠ started →
      l.Stop (some c) w = ⟨none, l, w, []⟩) ∧
    (∀ (c : κ) (w : σ),
      lifecycle.Stop (New : lifecycle κ σ) (some c) w = ⟨none, New, w, []⟩) ∧
    (∀ (hs : List (Hook κ σ)) (c c' : κ) (w : σ) (e : GoError),
      (lifecycle.Start ⟨stopped, hs⟩ (some c) w).err = some e →
      (lifecycle.Start ⟨stopped, hs⟩ (some c) w).lc.Stop (some c')
          (lifecycle.Start ⟨stopped, hs⟩ (some c) w).world
        = ⟨none, ⟨starting, hs⟩, (lifecycle.Start ⟨stopped, hs⟩ (some c) w).world, []⟩) := by
  refine ⟨fun l c w hne => Stop_not_started l c w hne, ?_, ?_⟩
  · intro c w
    exact Stop_not_started New c w (show stopped ≠ started by decide)
  · intro hs c c' w e hfail
    rw [Start_stopped_lc_of_err hs c w e hfail]
    exact Stop_not_started ⟨starting, hs⟩ c' _ (show starting ≠ started by decide)

/-- Witness of C7: `Stop` in each of the states `stopped`, `starting`,
`stopping`, and after the failed `Start` of `src/lifecycle_test.go`. -/
theorem Stop_noop_unless_started_witness :
    (stopped ≠ started ∧ starting ≠ started ∧ stopping ≠ started) ∧
    (lifecycle.Stop ⟨stopped, testHooks⟩ (some ()) [] = ⟨none, ⟨stopped, testHooks⟩, [], []⟩ ∧
      lifecycle.Stop ⟨starting, testHooks⟩ (some ()) []
        = ⟨none, ⟨starting, testHooks⟩, [], []⟩ ∧
      lifecycle.Stop ⟨stopping, testHooks⟩ (some ()) []
        = ⟨none, ⟨stopping, testHooks⟩, [], []⟩) ∧
    (lifecycle.Start ⟨stopped, testHooks⟩ (some ()) []).err
        = some (errors.New "2: start error") ∧
    (lifecycle.Start ⟨stopped, testHooks⟩ (some ()) []).lc.Stop (some ())
          (lifecycle.Start ⟨stopped, testHooks⟩ (some ()) []).world
        = ⟨none, ⟨starting, testHooks⟩, ["1: start"], []⟩ :=
  ⟨⟨by decide, by decide, by decide⟩,
    ⟨Stop_noop_unless_started.1 ⟨stopped, testHooks⟩ () [] (by decide),
      Stop_noop_unless_started.1 ⟨starting, testHooks⟩ () [] (by decide),
      Stop_noop_unless_started.1 ⟨stopping, testHooks⟩ () [] (by decide)⟩,
    rfl,
    Stop_noop_unless_started.2.2 testHooks () () [] (errors.New "2: start error") rfl⟩

/-- C8, evaluated at the hooks of `src/lifecycle_test.go`: `Start` invokes the
`OnStart` of hook 1, which returns nil, then that of hook 2, which fails; the
`Stop` that follows returns nil and invokes nothing, so the `OnStop` of hook 1,
whose `OnStart` counterpart succeeded, never runs. -/
theorem Stop_after_failed_Start_runs_no_OnStop :
    testHook1.OnStop.isSome = true ∧
    (lifecycle.Start (registered testHooks) (some ()) []).trace
        = [Event.onStart 0, Event.onStart 1] ∧
    (lifecycle.Start (registered testHooks) (some ()) []).err.map GoError.Error
        = some "2: start error" ∧
    (lifecycle.Start (registered testHooks) (some ()) []).world = ["1: start"] ∧
    (lifecycle.Start (registered testHooks) (some ()) []).lc.state = starting ∧
    ((lifecycle.Start (registered testHooks) (some ()) []).lc.Stop (some ())
        (lifecycle.Start (registered testHooks) (some ()) []).world).trace = [] ∧
    ((lifecycle.Start (registered testHooks) (some ()) []).lc.Stop (some ())
        (lifecycle.Start (registered testHooks) (some ()) []).world).err.isNone = true ∧
    (runCalls (testHooks.map Call.Append ++ [Call.Start (some ()), Call.Stop (some ())])
        New []).world = ["1: start"] ∧
    Event.onStop 0 ∉ (runCalls
        (testHooks.map Call.Append ++ [Call.Start (some ()), Call.Stop (some ())])
        New []).trace := by
  decide

/-- C9 fails as stated: on the hooks of `src/lifecycle_test.go`, `Start` fails
at hook 2 and after the `Stop` that follows the state is `starting`, not
`stopped`. -/
theorem Stop_after_failed_Start_not_stopped :
    ((lifecycle.Start (registered testHooks) (some ()) []).lc.Stop (some ())
        (lifecycle.Start (registered testHooks) (some ()) []).world).lc.state = starting ∧
    ((lifecycle.Start (registered testHooks) (some ()) []).lc.Stop (some ())
        (lifecycle.Start (registered testHooks) (some ()) []).world).lc.state ≠ stopped := by
  decide

/-- C9 as amended: for hooks registered on a new coordinator, the state after
`Stop` with a context is `stopped` when no `Start` came before, and when the
`Start` before it returned nil or was refused for its nil context; when that
`Start` returned the error of a hook, the state after `Stop` is `starting`. -/
theorem Stop_state_after_Start (hs : List (Hook κ σ)) (ctx : Option κ) (c' : κ) (w : σ) :
    ((registered hs).Stop (some c') w).lc.state = stopped ∧
    (((registered hs).Start ctx w).lc.Stop (some c') ((registered hs).Start ctx w).world).lc.state
      = if (ctx.isSome && ((registered hs).Start ctx w).err.isSome) = true
        then starting else stopped := by
  rw [registered_eq]
  constructor
  · rw [Stop_not_started ⟨stopped, hs⟩ c' w (show stopped ≠ started by decide)]
  · cases ctx with
    | none =>
      simp [lifecycle.Start,
        Stop_not_started ⟨stopped, hs⟩ c' w (show stopped ≠ started by decide)]
    | some c =>
      cases herr : (lifecycle.Start ⟨stopped, hs⟩ (some c) w).err with
      | none =>
        rw [Start_stopped_lc_of_ok hs c w herr, Stop_started]
        simp
      | some e =>
        rw [Start_stopped_lc_of_err hs c w e herr,
          Stop_not_started ⟨starting, hs⟩ c' _ (show starting ≠ started by decide)]
        simp

/-- C10: a failed `Start` is permanent. Once `Start` from `stopped` has
returned the error of a hook, every finite sequence of later `Append`, `Start`
and `Stop` calls with contexts leaves the state at `starting` and the world as
it was, invokes no callback, and returns the invalid-state error for state 1 at
each `Start` and nil at each `Stop`. -/
theorem failed_Start_is_permanent (hs : List (Hook κ σ)) (c : κ) (w : σ) (e : GoError)
    (calls : List (Call κ σ))
    (hfail : (lifecycle.Start ⟨stopped, hs⟩ (some c) w).err = some e)
    (hctx : ∀ call ∈ calls, call.ctxPresent = true) :
    (runCalls calls (lifecycle.Start ⟨stopped, hs⟩ (some c) w).lc
        (lifecycle.Start ⟨stopped, hs⟩ (some c) w).world).lc.state = starting ∧
    (runCalls calls (lifecycle.Start ⟨stopped, hs⟩ (some c) w).lc
        (lifecycle.Start ⟨stopped, hs⟩ (some c) w).world).world
      = (lifecycle.Start ⟨stopped, hs⟩ (some c) w).world ∧
    (runCalls calls (lifecycle.Start ⟨stopped, hs⟩ (some c) w).lc
        (lifecycle.Start ⟨stopped, hs⟩ (some c) w).world).trace = [] ∧
    (runCalls calls (lifecycle.Start ⟨stopped, hs⟩ (some c) w).lc
        (lifecycle.Start ⟨stopped, hs⟩ (some c) w).world).rets
      = calls.map (fun call => match call with
          | Call.Append _ => Ret.unit
          | Call.Start _ => Ret.error (some (GoError.fundamental
              "attempted to start lifecycle when in state: 1"))
          | Call.Stop _ => Ret.error none) := by
  have hlc := Start_stopped_lc_of_err hs c w e hfail
  have h := runCalls_starting calls (lifecycle.Start ⟨stopped, hs⟩ (some c) w).lc
    (lifecycle.Start ⟨stopped, hs⟩ (some c) w).world (by rw [hlc]) hctx
  refine ⟨h.1, h.2.1, h.2.2.1, ?_⟩
  rw [h.2.2.2]
  apply List.map_congr_left
  intro call _
  cases call <;> rfl

/-- Witness of C10: after the failed `Start` of `src/lifecycle_test.go`, the
calls `Stop`, `Start`, `Append`, `Start`, `Stop`. -/
theorem failed_Start_is_permanent_witness :
    (lifecycle.Start ⟨stopped, testHooks⟩ (some ()) []).err
        = some (errors.New "2: start error") ∧
    (runCalls laterCalls (lifecycle.Start ⟨stopped, testHooks⟩ (some ()) []).lc
        (lifecycle.Start ⟨stopped, testHooks⟩ (some ()) []).world).lc.state = starting ∧
    (runCalls laterCalls (lifecycle.Start ⟨stopped, testHooks⟩ (some ()) []).lc
        (lifecycle.Start ⟨stopped, testHooks⟩ (some ()) []).world).world = ["1: start"] ∧
    (runCalls laterCalls (lifecycle.Start ⟨stopped, testHooks⟩ (some ()) []).lc
        (lifecycle.Start ⟨stopped, testHooks⟩ (some ()) []).world).trace = [] :=
  have h := failed_Start_is_permanent testHooks () [] (errors.New "2: start error")
    laterCalls rfl (by simp [laterCalls, Call.ctxPresent])
  ⟨rfl, h.1, h.2.1, h.2.2.1⟩

/-! ## The aggregate message -/

/-- After the first element the loop of `multierr.Error` writes the separator
before each message. -/
theorem multierrLoop_succ (es : List GoError) (i : Nat) (buff : String) :
    multierrLoop es (i + 1) buff = String.intercalate.go buff "; " (es.map GoError.Error) := by
  induction es generalizing i buff with
  | nil => simp [multierrLoop, String.intercalate.go]
  | cons e rest ih => simp [multierrLoop, String.intercalate.go, ih]

/-- The message of an aggregate is the messages of its errors joined by
`"; "`. -/
theorem multierr_Error_eq (es : List GoError) :
    (GoError.multierr es).Error = "; ".intercalate (es.map GoError.Error) := by
  cases es with
  | nil => simp [GoError.Error, multierrLoop, String.intercalate]
  | cons e rest =>
    simp [GoError.Error, multierrLoop, String.intercalate, multierrLoop_succ]

/-! ## Claims, continued -/

/-- C11: a missing context is rejected before anything else. In every state
and for every hook list, `Start(nil)` and `Stop(nil)` return the errors "start
lifecycle with nil context" and "stop lifecycle with nil context", invoke no
callback and leave the coordinator (state and hooks) and the world as they
were; so `Stop(nil)` is an error even where `Stop` with a context returns nil,
and `Start(nil)` outside `stopped` does not return the invalid-state error. -/
theorem nil_context_rejected (l : lifecycle κ σ) (w : σ) :
    l.Start none w
        = ⟨some (GoError.fundamental "start lifecycle with nil context"), l, w, []⟩ ∧
    l.Stop none w
        = ⟨some (GoError.fundamental "stop lifecycle with nil context"), l, w, []⟩ ∧
    (l.Start none w).err ≠ none ∧ (l.Stop none w).err ≠ none ∧
    (l.Start none w).err ≠ some (invalidState l.state) ∧
    (l.Start none w).err.map GoError.Error = some "start lifecycle with nil context" ∧
    (l.Stop none w).err.map GoError.Error = some "stop lifecycle with nil context" := by
  refine ⟨rfl, rfl, by simp [lifecycle.Start], by simp [lifecycle.Stop], ?_, rfl, rfl⟩
  intro h
  have hmsg := congrArg (Option.map GoError.Error) h
  simp only [lifecycle.Start, errors.New, invalidState, Option.map, GoError.Error] at hmsg
  have hlen := congrArg String.length (Option.some.inj hmsg)
  rw [String.length_append] at hlen
  have h1 : ("start lifecycle with nil context" : String).length = 32 := by decide
  have h2 : ("attempted to start lifecycle when in state: " : String).length = 44 := by decide
  omega

/-- C12, evaluated at two hooks A and B (registered in this order) whose
`OnStop` callbacks both fail: the message of the error that `Stop` returns is
"A failed; B failed", the registration order, and not "B failed; A failed", the
reverse order of the claim; both messages are there and the state ends at
`stopped`. -/
theorem Stop_message_order_AB :
    (lifecycle.Stop ⟨started, hooksFailAB⟩ (some ()) []).err.map GoError.Error
        = some "A failed; B failed" ∧
    (lifecycle.Stop ⟨started, hooksFailAB⟩ (some ()) []).err.map GoError.Error
        ≠ some "B failed; A failed" ∧
    (lifecycle.Stop ⟨started, hooksFailAB⟩ (some ()) []).world = ["A.stop", "B.stop"] ∧
    (lifecycle.Stop ⟨started, hooksFailAB⟩ (some ()) []).lc.state = stopped := by
  decide

/-- C14: construction and registration. `New` is in state `stopped` with no
hook; `Append` adds the hook at the end and leaves the state alone, in every
state; so one `Append` per hook of `hs`, in order, on any coordinator adds
exactly `hs` at the end, and on a new coordinator gives the hook sequence `hs`
in state `stopped`. -/
theorem New_and_Append :
    (New : lifecycle κ σ).state = stopped ∧ (New : lifecycle κ σ).hooks = [] ∧
    (∀ (l : lifecycle κ σ) (h : Hook κ σ),
      (l.Append h).hooks = l.hooks ++ [h] ∧ (l.Append h).state = l.state) ∧
    (∀ (l : lifecycle κ σ) (hs : List (Hook κ σ)),
      (hs.foldl lifecycle.Append l).hooks = l.hooks ++ hs ∧
      (hs.foldl lifecycle.Append l).state = l.state) ∧
    (∀ hs : List (Hook κ σ),
      (hs.foldl lifecycle.Append New).hooks = hs ∧
      (hs.foldl lifecycle.Append New).hooks.length = hs.length ∧
      (hs.foldl lifecycle.Append (New : lifecycle κ σ)).state = stopped) := by
  refine ⟨rfl, rfl, fun l h => ⟨rfl, rfl⟩, ?_, ?_⟩
  · intro l hs
    rw [registered_eq_aux]
    exact ⟨rfl, rfl⟩
  · intro hs
    rw [registered_eq_aux]
    simp [New, stopped]

/-- C17: the text of the aggregate error. The message of `multierr` is the
messages of its errors, in list order, joined by "; ": the empty string for
the empty list, the bare message for one error, and for a list with a first
error the message of the first followed by "; " and the message of each of the
others, so that no separator leads or trails. -/
theorem multierr_Error_joined :
    (∀ es : List GoError,
      (GoError.multierr es).Error = "; ".intercalate (es.map GoError.Error)) ∧
    (GoError.multierr []).Error = "" ∧
    (∀ e : GoError, (GoError.multierr [e]).Error = e.Error) ∧
    (∀ e1 e2 : GoError, (GoError.multierr [e1, e2]).Error = e1.Error ++ "; " ++ e2.Error) ∧
    (∀ (e : GoError) (es : List GoError),
      (GoError.multierr (e :: es)).Error
        = es.foldl (fun acc x => acc ++ "; " ++ x.Error) e.Error) := by
  refine ⟨multierr_Error_eq, ?_, ?_, ?_, ?_⟩
  · simp [GoError.Error, multierrLoop]
  · intro e
    simp [GoError.Error, multierrLoop]
  · intro e1 e2
    simp [GoError.Error, multierrLoop]
  · intro e es
    have hgo : ∀ (l : List GoError) (i : Nat) (buff : String),
        multierrLoop l (i + 1) buff = l.foldl (fun acc x => acc ++ "; " ++ x.Error) buff := by
      intro l
      induction l with
      | nil => intro i buff; simp [multierrLoop]
      | cons x rest ih => intro i buff; simp [multierrLoop, ih]
    simp [GoError.Error, multierrLoop, hgo]

/-- C19: `Start` and `Stop` never modify the hook registry. For every
coordinator, context (nil or not) and world, the hooks after `Start` and after
`Stop` are the hooks before; `Append` changes the hooks, and nothing else. -/
theorem hooks_frame (l : lifecycle κ σ) (ctx : Option κ) (w : σ) :
    (l.Start ctx w).lc.hooks = l.hooks ∧ (l.Stop ctx w).lc.hooks = l.hooks ∧
    (∀ h : Hook κ σ, (l.Append h).hooks = l.hooks ++ [h] ∧ (l.Append h).hooks ≠ l.hooks ∧
      (l.Append h).state = l.state) := by
  refine ⟨?_, ?_, ?_⟩
  · cases ctx with
    | none => rfl
    | some c =>
      by_cases hst : l.state = stopped
      · obtain ⟨s, hs⟩ := l
        simp only at hst
        subst hst
        rw [Start_stopped]
        split <;> rfl
      · rw [Start_not_stopped l c w hst]
  · cases ctx with
    | none => rfl
    | some c =>
      by_cases hst : l.state = started
      · obtain ⟨s, hs⟩ := l
        simp only at hst
        subst hst
        rw [Stop_started]
      · rw [Stop_not_started l c w hst]
  · intro h
    refine ⟨rfl, ?_, rfl⟩
    intro heq
    have hlen := congrArg List.length heq
    simp [lifecycle.Append] at hlen

/-! ## State transitions -/

/-- The state after `Start` is the state before, or `Start` was called in
state `stopped` and ended in `starting` with an error or in `started` with
nil. -/
theorem Start_state_cases (l : lifecycle κ σ) (ctx : Option κ) (w : σ) :
    (l.Start ctx w).lc.state = l.state ∨
    (l.state = stopped ∧ (l.Start ctx w).err ≠ none ∧ (l.Start ctx w).lc.state = starting) ∨
    (l.state = stopped ∧ (l.Start ctx w).err = none ∧ (l.Start ctx w).lc.state = started) := by
  cases ctx with
  | none => exact Or.inl rfl
  | some c =>
    by_cases hst : l.state = stopped
    · obtain ⟨s, hs⟩ := l
      simp only at hst
      subst hst
      cases herr : (lifecycle.Start ⟨stopped, hs⟩ (some c) w).err with
      | none =>
        right; right
        rw [Start_stopped_lc_of_ok hs c w herr]
        exact ⟨rfl, rfl, rfl⟩
      | some e =>
        right; left
        rw [Start_stopped_lc_of_err hs c w e herr]
        exact ⟨rfl, by simp, rfl⟩
    · left
      rw [Start_not_stopped l c w hst]

/-- The state after `Stop` is the state before, or `Stop` was called in state
`started` and ended in `stopped`. -/
theorem Stop_state_cases (l : lifecycle κ σ) (ctx : Option κ) (w : σ) :
    (l.Stop ctx w).lc.state = l.state ∨
    (l.state = started ∧ (l.Stop ctx w).lc.state = stopped) := by
  cases ctx with
  | none => exact Or.inl rfl
  | some c =>
    by_cases hst : l.state = started
    · obtain ⟨s, hs⟩ := l
      simp only at hst
      subst hst
      right
      rw [Stop_started]
      exact ⟨rfl, rfl⟩
    · left
      rw [Stop_not_started l c w hst]

/-- No sequence of calls leaves the three states `stopped`, `starting`,
`started`. -/
theorem runCalls_state_inv (calls : List (Call κ σ)) (l : lifecycle κ σ) (w : σ)
    (hl : l.state = stopped ∨ l.state = starting ∨ l.state = started) :
    (runCalls calls l w).lc.state = stopped ∨ (runCalls calls l w).lc.state = starting ∨
      (runCalls calls l w).lc.state = started := by
  induction calls generalizing l w with
  | nil => simpa [runCalls] using hl
  | cons call rest ih =>
    cases call with
    | Append h =>
      simp only [runCalls]
      exact ih (l.Append h) w hl
    | Start ctx =>
      simp only [runCalls]
      apply ih
      rcases Start_state_cases l ctx w with h | ⟨_, _, h⟩ | ⟨_, _, h⟩
      · rw [h]; exact hl
      · exact Or.inr (Or.inl h)
      · exact Or.inr (Or.inr h)
    | Stop ctx =>
      simp only [runCalls]
      apply ih
      rcases Stop_state_cases l ctx w with h | ⟨_, h⟩
      · rw [h]; exact hl
      · exact Or.inl h

/-! ## Claims on transitions and restart -/

/-- C13: the state moves only along the cycle. A coordinator reached from
`New` by any finite sequence of `Append`, `Start` and `Stop` calls (any
contexts, any hook results) has one of the four states and is never left in
`stopping`; from it `Append` keeps the state, `Start` keeps it or goes from
`stopped` to `starting` (with an error) or to `started` (with nil), `Stop`
keeps it or goes from `started` to `stopped`; and the four writes of the state
in the code are the compare-and-swaps `stopped` to `starting`, `starting` to
`started`, `started` to `stopping`, `stopping` to `stopped`. -/
theorem state_follows_cycle (calls : List (Call κ σ)) (w0 : σ) :
    ((runCalls calls New w0).lc.state = stopped ∨ (runCalls calls New w0).lc.state = starting ∨
      (runCalls calls New w0).lc.state = started ∨
      (runCalls calls New w0).lc.state = stopping) ∧
    (runCalls calls New w0).lc.state ≠ stopping ∧
    (∀ h : Hook κ σ, ((runCalls calls New w0).lc.Append h).state
        = (runCalls calls New w0).lc.state) ∧
    (∀ (ctx : Option κ) (w : σ),
      (((runCalls calls New w0).lc.Start ctx w).lc.state = (runCalls calls New w0).lc.state ∨
        ((runCalls calls New w0).lc.state = stopped ∧
          ((runCalls calls New w0).lc.Start ctx w).err ≠ none ∧
          ((runCalls calls New w0).lc.Start ctx w).lc.state = starting) ∨
        ((runCalls calls New w0).lc.state = stopped ∧
          ((runCalls calls New w0).lc.Start ctx w).err = none ∧
          ((runCalls calls New w0).lc.Start ctx w).lc.state = started)) ∧
      ((runCalls calls New w0).lc.Start ctx w).lc.state ≠ stopping) ∧
    (∀ (ctx : Option κ) (w : σ),
      (((runCalls calls New w0).lc.Stop ctx w).lc.state = (runCalls calls New w0).lc.state ∨
        ((runCalls calls New w0).lc.state = started ∧
          ((runCalls calls New w0).lc.Stop ctx w).lc.state = stopped)) ∧
      ((runCalls calls New w0).lc.Stop ctx w).lc.state ≠ stopping) ∧
    (CompareAndSwapInt32 stopped stopped starting = (true, starting) ∧
      CompareAndSwapInt32 starting starting started = (true, started) ∧
      CompareAndSwapInt32 started started stopping = (true, stopping) ∧
      CompareAndSwapInt32 stopping stopping stopped = (true, stopped)) := by
  have hinv := runCalls_state_inv calls (New : lifecycle κ σ) w0 (Or.inl rfl)
  have hne : ∀ s : Int, (s = stopped ∨ s = starting ∨ s = started) → s ≠ stopping := by
    intro s hs
    rcases hs with h | h | h <;> rw [h] <;> decide
  refine ⟨?_, hne _ hinv, fun h => rfl, ?_, ?_, by decide⟩
  · rcases hinv with h | h | h
    · exact Or.inl h
    · exact Or.inr (Or.inl h)
    · exact Or.inr (Or.inr (Or.inl h))
  · intro ctx w
    refine ⟨Start_state_cases _ ctx w, ?_⟩
    apply hne
    rcases Start_state_cases (runCalls calls New w0).lc ctx w with h | ⟨_, _, h⟩ | ⟨_, _, h⟩
    · rw [h]; exact hinv
    · exact Or.inr (Or.inl h)
    · exact Or.inr (Or.inr h)
  · intro ctx w
    refine ⟨Stop_state_cases _ ctx w, ?_⟩
    apply hne
    rcases Stop_state_cases (runCalls calls New w0).lc ctx w with h | ⟨_, h⟩
    · rw [h]; exact hinv
    · exact Or.inl h

/-- C18: a coordinator is restartable after a completed `Stop`. Let the present
`OnStart` callbacks of `hs` all return nil when `Start` runs them from state
`stopped`, and again when they are run in the world left by the `Stop` that
follows. Then the first `Start` returns nil, `Stop` (whatever the `OnStop`
results) leaves exactly the coordinator in state `stopped` with the hooks `hs`
that `New` and the registrations had built, and the second `Start` returns
nil, ends in state `started` and invokes every present `OnStart` once, in
registration order, and no `OnStop`. -/
theorem restart_after_Stop (hs : List (Hook κ σ)) (c1 c2 c3 : κ) (w : σ)
    (hok1 : ∀ r ∈ (runSeq c1 (presentStarts hs) w).1, r = none)
    (hok2 : ∀ r ∈ (runSeq c3 (presentStarts hs)
        (((registered hs).Start (some c1) w).lc.Stop (some c2)
          ((registered hs).Start (some c1) w).world).world).1, r = none) :
    ((registered hs).Start (some c1) w).err = none ∧
    (((registered hs).Start (some c1) w).lc.Stop (some c2)
        ((registered hs).Start (some c1) w).world).lc = registered hs ∧
    (((registered hs).Start (some c1) w).lc.Stop (some c2)
        ((registered hs).Start (some c1) w).world).lc.state = stopped ∧
    (((registered hs).Start (some c1) w).lc.Stop (some c2)
        ((registered hs).Start (some c1) w).world).lc.Start (some c3)
        (((registered hs).Start (some c1) w).lc.Stop (some c2)
          ((registered hs).Start (some c1) w).world).world
      = ⟨none, ⟨started, hs⟩,
          (runSeq c3 (presentStarts hs)
            (((registered hs).Start (some c1) w).lc.Stop (some c2)
              ((registered hs).Start (some c1) w).world).world).2,
          startEvents hs⟩ ∧
    ((startEvents hs).map Event.index).Pairwise (fun a b => a < b) ∧
    (∀ j, Event.onStart j ∈ startEvents hs ↔
        ∃ h, hs[j]? = some h ∧ h.OnStart.isSome = true) ∧
    (∀ j, Event.onStop j ∉ startEvents hs) := by
  have hstart : ∀ (c : κ) (w' : σ), (∀ r ∈ (runSeq c (presentStarts hs) w').1, r = none) →
      lifecycle.Start ⟨stopped, hs⟩ (some c) w'
        = ⟨none, ⟨started, hs⟩, (runSeq c (presentStarts hs) w').2, startEvents hs⟩ := by
    intro c w' hok
    rw [Start_stopped, startLoop_ok c hs 0 _ hok]
    simp [startEvents, List.enum]
  rw [registered_eq] at hok2 ⊢
  rw [hstart c1 w hok1] at hok2 ⊢
  simp only [Stop_started] at hok2 ⊢
  refine ⟨trivial, trivial, trivial, hstart c3 _ hok2,
    events_sorted hs (fun h => h.OnStart.isSome) Event.onStart (fun _ => rfl),
    fun j => mem_events hs (fun h => h.OnStart.isSome) Event.onStart onStart_injective j,
    onStop_not_mem_startEvents hs⟩

/-- Witness of C18 on the hooks A, C, B: `Start`, `Stop` (C's `OnStop` fails),
`Start` again. -/
theorem restart_after_Stop_witness :
    (∀ r ∈ (runSeq () (presentStarts hooksACB) ([] : List String)).1, r = none) ∧
    (((registered hooksACB).Start (some ()) []).lc.Stop (some ())
        ((registered hooksACB).Start (some ()) []).world).lc.Start (some ())
        (((registered hooksACB).Start (some ()) []).lc.Stop (some ())
          ((registered hooksACB).Start (some ()) []).world).world
      = ⟨none, ⟨started, hooksACB⟩,
          ["A.start", "C.start", "B.start", "A.stop", "C.stop", "B.stop",
            "A.start", "C.start", "B.start"],
          [Event.onStart 0, Event.onStart 1, Event.onStart 2]⟩ :=
  ⟨by simp [runSeq, presentStarts, hooksACB, say],
    (restart_after_Stop hooksACB () () () []
      (by simp [runSeq, presentStarts, hooksACB, say])
      (by simp [runSeq, presentStarts, hooksACB, say])).2.2.2.1⟩

/-! ## Callbacks invoked -/

/-- The loop of `Start` in terms of the present `OnStart` callbacks alone: it
invokes them up to the first that fails. -/
theorem startLoop_closed (c : κ) (hs : List (Hook κ σ)) (i : Nat) (s : LoopState σ)
    (hret : s.ret = none) :
    startLoop c hs i s =
      ⟨(runUntilError c (presentStarts hs) s.world).1, s.errs,
        (runUntilError c (presentStarts hs) s.world).2.1,
        s.trace ++ (((hs.enumFrom i).filter (fun p => p.2.OnStart.isSome)).map
          (fun p => Event.onStart p.1)).take (runUntilError c (presentStarts hs) s.world).2.2⟩ := by
  induction hs generalizing i s with
  | nil =>
    obtain ⟨r, e, w, t⟩ := s
    simp only at hret
    subst hret
    simp [startLoop, presentStarts, runUntilError]
  | cons h t ih =>
    cases hstart : h.OnStart with
    | none =>
      simp [startLoop, presentStarts, hstart, ih (i + 1) s hret, List.enumFrom_cons,
        List.filter_cons]
    | some f =>
      rcases hr : f c s.world with ⟨r, w⟩
      cases r with
      | none =>
        simp [startLoop, presentStarts, runStartHook, hstart, hr, runUntilError,
          List.enumFrom_cons, List.filter_cons]
        rw [ih]
        · simp [presentStarts]
        · exact hret
      | some e =>
        simp [startLoop, presentStarts, runStartHook, hstart, hr, runUntilError,
          List.enumFrom_cons, List.filter_cons]

/-- The method `Start` in state `stopped`, in terms of the present `OnStart`
callbacks alone. -/
theorem Start_closed (hs : List (Hook κ σ)) (c : κ) (w : σ) :
    lifecycle.Start ⟨stopped, hs⟩ (some c) w =
      ⟨(runUntilError c (presentStarts hs) w).1,
        ⟨if (runUntilError c (presentStarts hs) w).1.isSome = true then starting else started, hs⟩,
        (runUntilError c (presentStarts hs) w).2.1,
        (startEvents hs).take (runUntilError c (presentStarts hs) w).2.2⟩ := by
  rw [Start_stopped, startLoop_closed c hs 0 _ rfl]
  cases hr : (runUntilError c (presentStarts hs) w).1 <;> simp [startEvents, List.enum]

/-- A filtered and mapped list as a `filterMap`, when the two agree on each
element. -/
theorem filter_map_eq_filterMap_map {α β γ : Type} (L : List α) (P : α → Bool) (g : α → γ)
    (k : α → Option β) (m : β → γ)
    (h : ∀ q ∈ L, (P q = true → ∃ x, k q = some x ∧ g q = m x) ∧ (P q = false → k q = none)) :
    (L.filter P).map g = (L.filterMap k).map m := by
  induction L with
  | nil => simp
  | cons a t ih =>
    have iht := ih (fun q hq => h q (List.mem_cons_of_mem _ hq))
    have ha := h a (List.mem_cons_self _ _)
    cases hP : P a with
    | true =>
      rcases ha.1 hP with ⟨x, hk, hg⟩
      simp [List.filter_cons, hP, List.filterMap_cons, hk, hg, iht]
    | false =>
      simp [List.filter_cons, hP, List.filterMap_cons, ha.2 hP, iht]

/-- The callbacks behind the `onStart` events of a hook list are its present
`OnStart` callbacks. -/
theorem startEvents_invocation (hs : List (Hook κ σ)) :
    (startEvents hs).map (Event.invocation hs)
      = (presentStarts hs).map (fun f => some (Invocation.start f)) := by
  have h1 : hs.filterMap (fun h => h.OnStart)
      = hs.enum.filterMap (fun q => q.2.OnStart) := by
    conv_lhs => rw [← List.enum_map_snd hs]
    rw [List.filterMap_map]
    rfl
  rw [startEvents, presentStarts, List.map_map, h1]
  apply filter_map_eq_filterMap_map
  intro q hq
  obtain ⟨i, h⟩ := q
  have hget : hs[i]? = some h := List.mk_mem_enum_iff_getElem?.1 hq
  constructor
  · intro hP
    cases hstart : h.OnStart with
    | none => simp [hstart] at hP
    | some f => exact ⟨f, rfl, by simp [Event.invocation, hget, hstart]⟩
  · intro hP
    cases hstart : h.OnStart with
    | none => rfl
    | some f => simp [hstart] at hP

/-- The callbacks behind the `onStop` events of a hook list are its present
`OnStop` callbacks. -/
theorem stopEvents_invocation (hs : List (Hook κ σ)) :
    (stopEvents hs).map (Event.invocation hs)
      = (presentStops hs).map (fun f => some (Invocation.stop f)) := by
  have h1 : hs.filterMap (fun h => h.OnStop)
      = hs.enum.filterMap (fun q => q.2.OnStop) := by
    conv_lhs => rw [← List.enum_map_snd hs]
    rw [List.filterMap_map]
    rfl
  rw [stopEvents, presentStops, List.map_map, h1]
  apply filter_map_eq_filterMap_map
  intro q hq
  obtain ⟨i, h⟩ := q
  have hget : hs[i]? = some h := List.mk_mem_enum_iff_getElem?.1 hq
  constructor
  · intro hP
    cases hstop : h.OnStop with
    | none => simp [hstop] at hP
    | some f => exact ⟨f, rfl, by simp [Event.invocation, hget, hstop]⟩
  · intro hP
    cases hstop : h.OnStop with
    | none => rfl
    | some f => simp [hstop] at hP

/-- A hook without `OnStart` does not count among the present `OnStart`
callbacks. -/
theorem presentStarts_insert (pre post : List (Hook κ σ)) (g : Option (Callback κ σ)) :
    presentStarts (pre ++ ⟨none, g⟩ :: post) = presentStarts (pre ++ post) := by
  simp [presentStarts, List.filterMap_append, List.filterMap_cons]

/-- A hook without `OnStop` does not count among the present `OnStop`
callbacks. -/
theorem presentStops_insert (pre post : List (Hook κ σ)) (f : Option (Callback κ σ)) :
    presentStops (pre ++ ⟨f, none⟩ :: post) = presentStops (pre ++ post) := by
  simp [presentStops, List.filterMap_append, List.filterMap_cons]

/-! ## Claim on absent callbacks -/

/-- C15: an absent callback contributes nothing. In every state, for every
context and at every position of the hook list, inserting a hook without
`OnStart` changes neither the error `Start` returns, nor the state it leaves,
nor the world, nor the sequence of callbacks it invokes; inserting a hook
without `OnStop` changes none of these for `Stop`. A hook with both callbacks
absent is therefore a no-op for both operations. -/
theorem absent_callback_contributes_nothing (pre post : List (Hook κ σ)) (s : Int)
    (ctx : Option κ) (w : σ) :
    (∀ g : Option (Callback κ σ),
      (lifecycle.Start ⟨s, pre ++ ⟨none, g⟩ :: post⟩ ctx w).err
        = (lifecycle.Start ⟨s, pre ++ post⟩ ctx w).err ∧
      (lifecycle.Start ⟨s, pre ++ ⟨none, g⟩ :: post⟩ ctx w).lc.state
        = (lifecycle.Start ⟨s, pre ++ post⟩ ctx w).lc.state ∧
      (lifecycle.Start ⟨s, pre ++ ⟨none, g⟩ :: post⟩ ctx w).world
        = (lifecycle.Start ⟨s, pre ++ post⟩ ctx w).world ∧
      (lifecycle.Start ⟨s, pre ++ ⟨none, g⟩ :: post⟩ ctx w).trace.map
          (Event.invocation (pre ++ ⟨none, g⟩ :: post))
        = (lifecycle.Start ⟨s, pre ++ post⟩ ctx w).trace.map
          (Event.invocation (pre ++ post))) ∧
    (∀ f : Option (Callback κ σ),
      (lifecycle.Stop ⟨s, pre ++ ⟨f, none⟩ :: post⟩ ctx w).err
        = (lifecycle.Stop ⟨s, pre ++ post⟩ ctx w).err ∧
      (lifecycle.Stop ⟨s, pre ++ ⟨f, none⟩ :: post⟩ ctx w).lc.state
        = (lifecycle.Stop ⟨s, pre ++ post⟩ ctx w).lc.state ∧
      (lifecycle.Stop ⟨s, pre ++ ⟨f, none⟩ :: post⟩ ctx w).world
        = (lifecycle.Stop ⟨s, pre ++ post⟩ ctx w).world ∧
      (lifecycle.Stop ⟨s, pre ++ ⟨f, none⟩ :: post⟩ ctx w).trace.map
          (Event.invocation (pre ++ ⟨f, none⟩ :: post))
        = (lifecycle.Stop ⟨s, pre ++ post⟩ ctx w).trace.map
          (Event.invocation (pre ++ post))) := by
  constructor
  · intro g
    cases ctx with
    | none => exact ⟨rfl, rfl, rfl, rfl⟩
    | some c =>
      by_cases hst : s = stopped
      · subst hst
        rw [Start_closed, Start_closed, presentStarts_insert]
        refine ⟨rfl, rfl, rfl, ?_⟩
        simp only [List.map_take]
        rw [startEvents_invocation, startEvents_invocation, presentStarts_insert]
      · rw [Start_not_stopped ⟨s, pre ++ ⟨none, g⟩ :: post⟩ c w hst,
          Start_not_stopped ⟨s, pre ++ post⟩ c w hst]
        exact ⟨rfl, rfl, rfl, rfl⟩
  · intro f
    cases ctx with
    | none => exact ⟨rfl, rfl, rfl, rfl⟩
    | some c =>
      by_cases hst : s = started
      · subst hst
        rw [Stop_started, Stop_started, presentStops_insert]
        refine ⟨rfl, rfl, rfl, ?_⟩
        simp only
        rw [stopEvents_invocation, stopEvents_invocation, presentStops_insert]
      · rw [Stop_not_started ⟨s, pre ++ ⟨f, none⟩ :: post⟩ c w hst,
          Stop_not_started ⟨s, pre ++ post⟩ c w hst]
        exact ⟨rfl, rfl, rfl, rfl⟩

end Lifecycle
